import Mathlib

/-!
# Verification of the news content pipeline

A shallow embedding, in Lean 4, of the news-content pipeline of this
repository: the frontmatter codec, slug generator, excerpt computer,
post validator and the two index builders (the validate path `main`
and the CLI `rebuild-index` path), together with theorems settling the
frozen claims about them.

Modelling conventions:
* JavaScript strings are modelled as Lean `String`/`List Char`; every
  string manipulated by the pipeline consists of characters of the
  Basic Multilingual Plane, where JS UTF-16 code units and Lean
  characters coincide.
* JS `Array.prototype.sort` is modelled by a stable insertion sort;
  JS requires the sort to be stable, and for a consistent comparator
  the stable result is unique, so any stable sort is a faithful model.
* `String.prototype.toLowerCase` and `normalize('NFD')` are modelled
  character-wise on ASCII plus the Latin letters used by the content
  (č, š, ž, ć, á, é, í, ó, ú and their upper-case forms); all other
  characters are left unchanged.
* `new Date(s)` is modelled for strings that are either valid ISO
  calendar dates `YYYY-MM-DD` (parsed as UTC midnight, so
  `toISOString().slice(0,10)` round-trips to `s`) or strings that JS
  fails to parse (Invalid Date).  All date strings appearing in
  concrete theorems fall in one of these two classes.
-/

set_option maxRecDepth 100000

/-! ## Character classes and elementary string helpers -/

/-- The character class `[a-z0-9]` used by `toSlug`, `SLUG_RE` and
`FILENAME_RE` in `tools/validate-news.mjs`. -/
def isLowerAlnum (c : Char) : Bool :=
  (97 ≤ c.toNat && c.toNat ≤ 122) || (48 ≤ c.toNat && c.toNat ≤ 57)

/-- The class `\d` of ASCII digits. -/
def isDigit10 (c : Char) : Bool :=
  48 ≤ c.toNat && c.toNat ≤ 57

/-- JS whitespace (`\s`, and the set removed by `String.prototype.trim`):
space, tab, LF, VT, FF, CR, NBSP, line/paragraph separator, BOM. -/
def jsWs (c : Char) : Bool :=
  c == ' ' || c == '\t' || c == '\n' || (11 ≤ c.toNat && c.toNat ≤ 13) ||
  c.toNat == 0xa0 || c.toNat == 0x2028 || c.toNat == 0x2029 || c.toNat == 0xfeff

/-- `String.prototype.toLowerCase`, character-wise, on ASCII letters and
the accented Latin capitals used by the content (see module docstring). -/
def jsLowerChar (c : Char) : Char :=
  if 65 ≤ c.toNat && c.toNat ≤ 90 then Char.ofNat (c.toNat + 32)
  else if c.toNat == 0x10C then Char.ofNat 0x10D       -- Č → č
  else if c.toNat == 0x160 then Char.ofNat 0x161       -- Š → š
  else if c.toNat == 0x17D then Char.ofNat 0x17E       -- Ž → ž
  else if c.toNat == 0x106 then Char.ofNat 0x107       -- Ć → ć
  else if c.toNat == 0x110 then Char.ofNat 0x111       -- Đ → đ
  else if c.toNat == 0xC1 then Char.ofNat 0xE1         -- Á → á
  else if c.toNat == 0xC9 then Char.ofNat 0xE9         -- É → é
  else if c.toNat == 0xCD then Char.ofNat 0xED         -- Í → í
  else if c.toNat == 0xD3 then Char.ofNat 0xF3         -- Ó → ó
  else if c.toNat == 0xDA then Char.ofNat 0xFA         -- Ú → ú
  else c

/-- Unicode NFD decomposition, character-wise, for the accented Latin
letters used by the content; other characters decompose to themselves. -/
def nfdChar (c : Char) : List Char :=
  if c.toNat == 0x10D then [Char.ofNat 0x63, Char.ofNat 0x30C]       -- č
  else if c.toNat == 0x161 then [Char.ofNat 0x73, Char.ofNat 0x30C]  -- š
  else if c.toNat == 0x17E then [Char.ofNat 0x7A, Char.ofNat 0x30C]  -- ž
  else if c.toNat == 0x107 then [Char.ofNat 0x63, Char.ofNat 0x301]  -- ć
  else if c.toNat == 0xE1 then [Char.ofNat 0x61, Char.ofNat 0x301]   -- á
  else if c.toNat == 0xE9 then [Char.ofNat 0x65, Char.ofNat 0x301]   -- é
  else if c.toNat == 0xED then [Char.ofNat 0x69, Char.ofNat 0x301]   -- í
  else if c.toNat == 0xF3 then [Char.ofNat 0x6F, Char.ofNat 0x301]   -- ó
  else if c.toNat == 0xFA then [Char.ofNat 0x75, Char.ofNat 0x301]   -- ú
  else [c]

/-- The combining-marks range `[̀-ͯ]` removed by `toSlug`. -/
def isCombiningMark (c : Char) : Bool :=
  0x300 ≤ c.toNat && c.toNat ≤ 0x36F

/-- `String.prototype.trim` on a character list: drop JS whitespace from
both ends. -/
def jsTrimL (l : List Char) : List Char :=
  ((l.dropWhile jsWs).reverse.dropWhile jsWs).reverse

/-- `String.prototype.trim`. -/
def jsTrim (s : String) : String :=
  ⟨jsTrimL s.data⟩

/-- `split` on a single-character separator, keeping empty pieces,
exactly as JS `String.prototype.split` with a one-character string. -/
def splitOnChar (sep : Char) : List Char → List (List Char)
  | [] => [[]]
  | c :: cs =>
    let r := splitOnChar sep cs
    if c == sep then [] :: r
    else
      match r with
      | h :: t => (c :: h) :: t
      | [] => [[c]]

/-- `s.split(sep)` for a one-character separator, as strings. -/
def jsSplitChar (sep : Char) (s : String) : List String :=
  (splitOnChar sep s.data).map String.mk

/-- `Array.prototype.join(sep)` on character lists. -/
def joinSep (sep : Char) : List (List Char) → List Char
  | [] => []
  | [p] => p
  | p :: ps => p ++ sep :: joinSep sep ps

/-! ## SlugGenerator: `toSlug` from `tools/validate-news.mjs` -/

/-- `.replace(/[^a-z0-9]+/g, '-')`: every maximal run of characters
outside `[a-z0-9]` becomes a single hyphen. -/
def collapseRuns : List Char → List Char
  | [] => []
  | c :: cs =>
    if isLowerAlnum c then c :: collapseRuns cs
    else
      -- a non-alphanumeric character extends the run already begun by the
      -- next character exactly when the collapsed tail starts with `-`
      let r := collapseRuns cs
      if r.head? = some '-' then r else '-' :: r

/-- One application of `^-` in `.replace(/(^-|-$)/g, '')`: remove a single
leading hyphen. -/
def stripLead (l : List Char) : List Char :=
  match l with
  | [] => []
  | c :: t => if c = '-' then t else c :: t

/-- `.replace(/(^-|-$)/g, '')`: with the `g` flag this regex removes one
leading and one trailing hyphen (the anchors can each match only once). -/
def stripEdge (l : List Char) : List Char :=
  (stripLead (stripLead l).reverse).reverse

/-- `toSlug` (tools/validate-news.mjs): trim, lowercase, NFD-decompose and
drop combining marks, collapse non-alphanumeric runs to single hyphens,
strip edge hyphens. -/
def toSlug (input : String) : String :=
  ⟨stripEdge (collapseRuns
    (((jsTrimL input.data).map jsLowerChar).flatMap nfdChar |>.filter
      (fun c => !isCombiningMark c)))⟩

/-- The deterministic finite automaton of
`SLUG_RE = /^[a-z0-9]+(?:-[a-z0-9]+)*$/`; the flag records whether the
scanner is inside a completed `[a-z0-9]+` block (may stop or see `-`). -/
def slugScan : List Char → Bool → Bool
  | [], inBlock => inBlock
  | c :: cs, inBlock =>
    if isLowerAlnum c then slugScan cs true
    else if c = '-' then inBlock && slugScan cs false
    else false

/-- `SLUG_RE.test` (tools/validate-news.mjs). -/
def slugReTest (s : String) : Bool :=
  slugScan s.data false

example : toSlug "Čudovita Novica!" = "cudovita-novica" := by decide
example : toSlug "" = "" := by decide
example : toSlug "X" = "x" := by decide
example : slugReTest "cudovita-novica" = true := by decide
example : slugReTest "-a" = false := by decide
example : slugReTest "a--b" = false := by decide

/-! ## ExcerptComputer: `truncate` from `tools/validate-news.mjs` -/

/-- `sliced.lastIndexOf(' ')`: index of the last space character, if any. -/
def lastSpaceIdx : List Char → Option Nat
  | [] => none
  | c :: cs =>
    match lastSpaceIdx cs with
    | some i => some (i + 1)
    | none => if c = ' ' then some 0 else none

/-- `truncate(text, 180)` (tools/validate-news.mjs); every call site of
`truncate` passes `max = 180`, for which the source's float threshold
`max * 0.6` evaluates to exactly `108.0`, so `lastSpace > max * 0.6`
is `108 < lastSpace` (and `false` when `lastIndexOf` returned `-1`). -/
def truncate180 (text : String) : String :=
  let s := text.data
  if s.length ≤ 180 then text
  else
    let sliced := s.take 180
    let cut :=
      match lastSpaceIdx sliced with
      | some i => if 108 < i then i else 180
      | none => 180
    ⟨jsTrimL (sliced.take cut) ++ ['…']⟩

/-! ## FieldCodec: header values, `parseFrontmatter`, `normalizeTags` -/

/-- A parsed frontmatter value: a scalar string or an inline bracket list
(the only two shapes `parseFrontmatter` produces). -/
inductive FieldValue where
  | str (s : String)
  | list (l : List String)
deriving DecidableEq, Repr

/-- JS `String(v)` on a frontmatter value (arrays stringify by joining
their elements with a comma). -/
def jsString : FieldValue → String
  | .str s => s
  | .list l => ⟨joinSep ',' (l.map String.data)⟩

/-- JS truthiness of a possibly-absent frontmatter value: `undefined` and
the empty string are falsy, every array (even empty) is truthy. -/
def truthy : Option FieldValue → Bool
  | none => false
  | some (.str s) => !(s == "")
  | some (.list _) => true

/-- `String(v || '')`: the empty string when the value is absent or falsy,
otherwise `String(v)`. -/
def jsStringOr (v : Option FieldValue) : String :=
  if truthy v then jsString (v.getD (.str "")) else ""

/-- `normalizeTags` (tools/validate-news.mjs): absent/falsy gives `[]`,
an array maps each element through `trim` and drops empties, a string is
split on commas, trimmed and filtered. -/
def normalizeTags (tags : Option FieldValue) : List String :=
  match tags with
  | none => []
  | some (.str s) =>
    if s == "" then []
    else ((jsSplitChar ',' s).map jsTrim).filter (fun t => !(t == ""))
  | some (.list l) => (l.map jsTrim).filter (fun t => !(t == ""))

/-- First index at which `pat` occurs as a contiguous sublist. -/
def findSub (pat : List Char) : List Char → Option Nat
  | [] => if pat.isEmpty then some 0 else none
  | c :: cs =>
    if pat.isPrefixOf (c :: cs) then some 0
    else (findSub pat cs).map (· + 1)

/-- The frontmatter block captured by matching raw text against the
regex `^---\n([\s\S]*?)\n---` : the text must begin with a `---` line,
and the lazy group runs up to the first later occurrence of a newline
followed by `---`. -/
def fmBlock (raw : String) : Option (List Char) :=
  let l := raw.data
  if l.take 4 == ['-', '-', '-', '\n'] then
    let rest := l.drop 4
    (findSub ['\n', '-', '-', '-'] rest).map (fun i => rest.take i)
  else none

/-- One header line of `parseFrontmatter` (tools/validate-news.mjs):
split at the first `:`, trim key and value, skip colon-less lines and
empty keys, then interpret `[...]` bracket lists and quoted scalars. -/
def parseLine (line : String) : Option (String × FieldValue) :=
  match findSub [':'] line.data with
  | none => none
  | some idx =>
    let key := jsTrim ⟨line.data.take idx⟩
    let v := jsTrimL (line.data.drop (idx + 1))
    if key == "" then none
    else if v.head? == some '[' && v.getLast? == some ']' then
      some (key, .list ((((jsSplitChar ',' ⟨(v.drop 1).dropLast⟩)).map
        jsTrim).filter (fun t => !(t == ""))))
    else if (v.head? == some '"' && v.getLast? == some '"') ||
        (v.head? == some (Char.ofNat 39) && v.getLast? == some (Char.ofNat 39)) then
      some (key, .str ⟨(v.drop 1).dropLast⟩)
    else
      some (key, .str ⟨v⟩)

/-- `parseFrontmatter` (tools/validate-news.mjs): `none` models the
`null` returned when the frontmatter block is missing; otherwise the
key/value assignments in header order (later assignments win). -/
def parseFrontmatter (raw : String) : Option (List (String × FieldValue)) :=
  (fmBlock raw).map (fun b => (jsSplitChar '\n' ⟨b⟩).filterMap parseLine)

/-- `yaml[k]`: the last assignment to `k` wins, as for a JS object. -/
def getField (yaml : List (String × FieldValue)) (k : String) : Option FieldValue :=
  ((yaml.reverse).find? (fun p => p.1 == k)).map (·.2)

/-! ## The validator's regular expressions -/

/-- `DATE_RE = /^\d{4}-\d{2}-\d{2}$/`. -/
def dateShape (s : String) : Bool :=
  match s.data with
  | [a, b, c, d, h1, e, f, h2, g, i] =>
    isDigit10 a && isDigit10 b && isDigit10 c && isDigit10 d && h1 == '-' &&
    isDigit10 e && isDigit10 f && h2 == '-' && isDigit10 g && isDigit10 i
  | _ => false

/-- The trailing character class of `HERO_RE`: ASCII letters, digits,
dot, underscore, slash and hyphen. -/
def heroChar (c : Char) : Bool :=
  isLowerAlnum c || (65 ≤ c.toNat && c.toNat ≤ 90) || c == '.' || c == '_' ||
  c == '/' || c == '-'

/-- `HERO_RE`: the path must start with the asset root
`static/uploads/news`, continue with a four-digit year directory and a
two-digit month directory, and end with a nonempty run of `heroChar`s. -/
def heroRe (s : String) : Bool :=
  let l := s.data
  ("/static/uploads/news/".data.isPrefixOf l) &&
  (let r := l.drop 21
   (r.take 4).length == 4 && (r.take 4).all isDigit10 && r.get? 4 == some '/' &&
   ((r.drop 5).take 2).length == 2 && ((r.drop 5).take 2).all isDigit10 &&
   r.get? 7 == some '/' &&
   !(r.drop 8).isEmpty && (r.drop 8).all heroChar)

/-- `FILENAME_RE`: a date prefix in either eight-digit or dashed form,
a hyphen, a slug, and the extension `.md`.  The two date alternatives
are mutually exclusive (a digit is never a hyphen), so the regex is an
exact disjunction of the two decompositions. -/
def filenameRe (s : String) : Bool :=
  let l := s.data
  let n := l.length
  (3 ≤ n && l.drop (n - 3) == ['.', 'm', 'd']) &&
  (let base := l.take (n - 3)
   ((base.take 8).length == 8 && (base.take 8).all isDigit10 &&
     base.get? 8 == some '-' && slugScan (base.drop 9) false) ||
   (dateShape ⟨base.take 10⟩ && base.get? 10 == some '-' &&
     slugScan (base.drop 11) false))

example : dateShape "2024-13-40" = true := by decide
example : dateShape "2024-3-05" = false := by decide
example : filenameRe "2024-13-40-obvestilo.md" = true := by decide
example : filenameRe "20240101-a.md" = true := by decide
example : filenameRe "foo.md" = false := by decide
example : heroRe "/static/uploads/news/2024/01/pic.jpg" = true := by decide

/-! ## `generateSlug` from the news CLI -/

/-- `.replace(/p+/g, r)` for a character class `p`: each maximal run of
`p`-characters becomes the single character `r`; the flag records whether
the previous input character belonged to the run being replaced. -/
def runRep (p : Char → Bool) (r : Char) : Bool → List Char → List Char
  | _, [] => []
  | prev, c :: cs =>
    if p c then
      if prev then runRep p r true cs else r :: runRep p r true cs
    else c :: runRep p r false cs

/-- `generateSlug` (news CLI): lowercase, delete characters outside
`[a-z0-9\s-]`, turn whitespace runs into hyphens, collapse hyphen runs,
strip edge hyphens. -/
def generateSlug (title : String) : String :=
  ⟨stripEdge (runRep (fun c => c == '-') '-' false
    (runRep jsWs '-' false
      ((title.data.map jsLowerChar).filter
        (fun c => isLowerAlnum c || jsWs c || c == '-'))))⟩

example : generateSlug "My Post Title" = "my-post-title" := by decide
example : generateSlug "  a -- b " = "a-b" := by decide

/-! ## The JS array sort, modelled as a stable insertion sort -/

/-- Insert `x` (a later input element) after every element it does not have
to precede: stable insertion for the "should stay before" relation `le`. -/
def insertA (le : α → α → Bool) (x : α) : List α → List α
  | [] => [x]
  | y :: ys => if le y x then y :: insertA le x ys else x :: y :: ys

/-- `Array.prototype.sort(cmp)` with `le a b := cmp a b ≤ 0`: a stable
sort; for a consistent comparator the stable result is unique, so this
models the engine's sort exactly. -/
def jsSort (le : α → α → Bool) (l : List α) : List α :=
  l.foldl (fun acc x => insertA le x acc) []

/-- Code-point lexicographic string order, the model of
`String.prototype.localeCompare` on the ASCII date strings compared by
the index sort. -/
def lexLe : List Char → List Char → Bool
  | [], _ => true
  | _ :: _, [] => false
  | a :: as, b :: bs =>
    if a.toNat < b.toNat then true
    else if b.toNat < a.toNat then false
    else lexLe as bs

example : jsSort (fun a b => lexLe b.data a.data) ["2024-01-01", "2024-06-15", "2023-12-31"]
    = ["2024-06-15", "2024-01-01", "2023-12-31"] := by decide

/-! ## PostValidator: the hard errors of `validateFrontmatter` -/

/-- `String(v)` of a field that is known present, defaulting to the empty
string for the absent case (only reached under a truthiness guard). -/
def jsStringD (v : Option FieldValue) : String :=
  jsString (v.getD (.str ""))

/-- The JS short-circuit `String(a || b || '')`. -/
def jsOr2 (a b : Option FieldValue) : String :=
  if truthy a then jsStringD a else if truthy b then jsStringD b else ""

/-- The hard-error list of `validateFrontmatter` (tools/validate-news.mjs,
enhanced validator).  Warnings are accumulated in a separate list that the
tool only ever prints; nothing downstream (in particular the exit status)
reads them, so the model carries the error channel only. -/
def validateErrors (yaml? : Option (List (String × FieldValue)))
    (filename : String) : List String :=
  match yaml? with
  | none => ["missing frontmatter block"]
  | some y =>
    let title := getField y "title"
    let date := getField y "date"
    let slug := getField y "slug"
    let image := getField y "image"
    (if !truthy title || jsTrim (jsStringD title) == "" then
      ["title is required"] else []) ++
    (if !truthy date || !dateShape (jsStringD date) then
      ["date must be YYYY-MM-DD"] else []) ++
    (if truthy slug && !slugReTest (jsStringD slug) then
      ["slug format invalid (must be lowercase letters, numbers, and hyphens)"]
     else []) ++
    (if truthy image && !heroRe (jsStringD image) then
      ["image path must be under /static/uploads/news/YYYY/MM/"] else []) ++
    -- tags: the `Array.isArray(tags) && not every string` error can never
    -- fire on parsed frontmatter, whose lists contain strings only.
    (match getField y "tags" with
     | some (.list _) => ([] : List String)
     | _ => []) ++
    (if !filenameRe filename then
      ["filename must match YYYY-MM-DD-slug.md format"] else []) ++
    (if !truthy slug && truthy title && toSlug (jsStringOr title) == "" then
      ["slug would be empty when derived from title"] else [])

/-! ## Calendar dates: the model of `new Date` and `toIsoDate` -/

/-- Gregorian leap year. -/
def isLeap (y : Nat) : Bool :=
  (y % 4 == 0 && y % 100 != 0) || y % 400 == 0

/-- Days in a month of the proleptic Gregorian calendar. -/
def daysInMonth (y m : Nat) : Nat :=
  if m == 2 then (if isLeap y then 29 else 28)
  else if m == 4 || m == 6 || m == 9 || m == 11 then 30
  else 31

/-- Digit value of an ASCII digit character. -/
def digitVal (c : Char) : Nat := c.toNat - 48

/-- Parse a string as an ISO `YYYY-MM-DD` calendar date, exactly when JS
`new Date(s)` accepts it through the ISO date-only format (month 01–12,
day within the month). -/
def parseIsoDate (s : String) : Option (Nat × Nat × Nat) :=
  match s.data with
  | [y1, y2, y3, y4, h1, m1, m2, h2, d1, d2] =>
    if isDigit10 y1 && isDigit10 y2 && isDigit10 y3 && isDigit10 y4 &&
        h1 == '-' && isDigit10 m1 && isDigit10 m2 && h2 == '-' &&
        isDigit10 d1 && isDigit10 d2 then
      let y := 1000 * digitVal y1 + 100 * digitVal y2 + 10 * digitVal y3 + digitVal y4
      let m := 10 * digitVal m1 + digitVal m2
      let d := 10 * digitVal d1 + digitVal d2
      if 1 ≤ m && m ≤ 12 && 1 ≤ d && d ≤ daysInMonth y m then some (y, m, d)
      else none
    else none
  | _ => none

/-- Days since the Unix epoch of a Gregorian date (standard era-based
civil-calendar formula); all divisions here are exact or on nonnegative
operands, so integer-division conventions do not matter. -/
def daysFromCivil (y m d : Int) : Int :=
  let y2 := y - (if m ≤ 2 then 1 else 0)
  let era := (if 0 ≤ y2 then y2 else y2 - 399) / 400
  let yoe := y2 - era * 400
  let doy := (153 * (m + (if 2 < m then -3 else 9)) + 2) / 5 + d - 1
  let doe := yoe * 365 + yoe / 4 - yoe / 100 + doy
  era * 146097 + doe - 719468

/-- `new Date(s).getTime()`: defined for the modelled classes of input,
ISO calendar dates (UTC midnight) and unparseable strings (`none`,
standing for `NaN`). -/
def jsDateMillis (s : String) : Option Int :=
  (parseIsoDate s).map (fun t => 86400000 * daysFromCivil t.1 t.2.1 t.2.2)

/-- `toIsoDate` (tools/validate-news.mjs): for a parseable date,
`toISOString().slice(0,10)` reproduces the ISO string; for an invalid
date `toISOString` throws and the catch returns `String(d || '')`. -/
def toIsoDate (d : Option FieldValue) : String :=
  let s := match d with | none => "" | some v => jsString v
  match parseIsoDate s with
  | some _ => s
  | none => jsStringOr d

example : toIsoDate (some (.str "2024-03-05")) = "2024-03-05" := by decide
example : toIsoDate (some (.str "2024-13-40")) = "2024-13-40" := by decide
example : toIsoDate none = "" := by decide

/-! ## ExcerptComputer: the markdown-stripping passes of `buildIndexEntry`

Each `.replace(pattern, r)` with the `g` flag is modelled by a scanner
that repeatedly tries the pattern at the current position, emits the
replacement and resumes after the match, or moves one character forward;
this is exactly the JS global-replace semantics for these patterns, none
of which can match the empty string. -/

/-- One-position matcher for the image pattern: `!`, `[`, any run without
`]`, `]`, `(`, a nonempty run without `)`, `)`; replaced by nothing. -/
def tryImage : List Char → Option (List Char × List Char)
  | '!' :: '[' :: r =>
    let alt := r.takeWhile (fun c => c != ']')
    (match r.drop alt.length with
     | ']' :: '(' :: r3 =>
       let url := r3.takeWhile (fun c => c != ')')
       if url.isEmpty then none
       else
         match r3.drop url.length with
         | ')' :: r4 => some ([], r4)
         | _ => none
     | _ => none)
  | _ => none

/-- One-position matcher for the link pattern (as the image pattern,
without the leading `!`).  The source replaces it with the string `$1`,
and since the pattern has no capturing group JS keeps the two characters
`$1` literally. -/
def tryLink : List Char → Option (List Char × List Char)
  | '[' :: r =>
    let alt := r.takeWhile (fun c => c != ']')
    (match r.drop alt.length with
     | ']' :: '(' :: r3 =>
       let url := r3.takeWhile (fun c => c != ')')
       if url.isEmpty then none
       else
         match r3.drop url.length with
         | ')' :: r4 => some (['$', '1'], r4)
         | _ => none
     | _ => none)
  | _ => none

/-- The backtick character. -/
def btick : Char := Char.ofNat 96

/-- One-position matcher for inline code: one to three backticks, a run
without backticks, one to three closing backticks; removed. -/
def tryCode (l : List Char) : Option (List Char × List Char) :=
  let o := (l.takeWhile (fun c => c == btick)).length
  if o == 0 then none
  else
    let rest := l.drop (min o 3)
    let mid := rest.takeWhile (fun c => c != btick)
    let rest2 := rest.drop mid.length
    let cl := (rest2.takeWhile (fun c => c == btick)).length
    if cl == 0 then none else some ([], rest2.drop (min cl 3))

/-- Emphasis marker class `[*_]`. -/
def isEmph (c : Char) : Bool := c == '*' || c == '_'

/-- One-position matcher for emphasis: one to three markers (a longer run
cannot back off onto another marker, so it fails here), a nonempty run of
non-markers (kept), one to three closing markers. -/
def tryEmph (l : List Char) : Option (List Char × List Char) :=
  let o := (l.takeWhile isEmph).length
  if o == 0 || 3 < o then none
  else
    let rest := l.drop o
    let mid := rest.takeWhile (fun c => !isEmph c)
    if mid.isEmpty then none
    else
      let rest2 := rest.drop mid.length
      let cl := (rest2.takeWhile isEmph).length
      if cl == 0 then none else some (mid, rest2.drop (min cl 3))

/-- Fueled global-replace scanner; the fuel (initially the input length)
only bounds recursion and is never exhausted because every pattern match
consumes at least one character. -/
def scanRep (tm : List Char → Option (List Char × List Char)) :
    Nat → List Char → List Char
  | 0, l => l
  | _ + 1, [] => []
  | n + 1, c :: cs =>
    match tm (c :: cs) with
    | some (rep, rest) => rep ++ scanRep tm n rest
    | none => c :: scanRep tm n cs

/-- Run a global replace over a whole list. -/
def runScan (tm : List Char → Option (List Char × List Char))
    (l : List Char) : List Char :=
  scanRep tm l.length l

/-- The class `[>#*-]` of list-marker and blockquote characters. -/
def isMarkerChar (c : Char) : Bool :=
  c == '>' || c == '#' || c == '*' || c == '-'

/-- Global multiline replace of `^\s*[>#*-]+\s*` by nothing: at each line
start, greedy whitespace, at least one marker character, greedy
whitespace; the flag tracks whether the scanner sits at a line start. -/
def markerScan : Nat → Bool → List Char → List Char
  | 0, _, l => l
  | _ + 1, _, [] => []
  | n + 1, atLS, c :: cs =>
    if atLS then
      let w1 := (c :: cs).takeWhile jsWs
      let r1 := (c :: cs).drop w1.length
      let mk := r1.takeWhile isMarkerChar
      if mk.isEmpty then c :: markerScan n (c == '\n') cs
      else
        let r2 := r1.drop mk.length
        let w2 := r2.takeWhile jsWs
        markerScan n (w2.getLast? == some '\n') (r2.drop w2.length)
    else c :: markerScan n (c == '\n') cs

/-- The body captured by matching the unit text against
`^---\n[\s\S]*?\n---\n\n([\s\S]*)` : everything after the first
frontmatter terminator that is followed by a blank line; the empty
string when the pattern does not match. -/
def bodyBlock (raw : String) : List Char :=
  let l := raw.data
  if l.take 4 == ['-', '-', '-', '\n'] then
    match findSub ['\n', '-', '-', '-', '\n', '\n'] (l.drop 4) with
    | some i => (l.drop 4).drop (i + 6)
    | none => []
  else []

/-- First segment of `body.split(/\n{2,}/)`: the prefix before the first
pair of consecutive newlines. -/
def firstPara : List Char → List Char
  | '\n' :: '\n' :: _ => []
  | c :: cs => c :: firstPara cs
  | [] => []

/-- Word counter for `split(/\s+/).filter(Boolean).length`: the number of
maximal nonwhitespace runs. -/
def cwGo : Bool → List Char → Nat
  | _, [] => 0
  | inWord, c :: cs =>
    if jsWs c then cwGo false cs
    else (if inWord then 0 else 1) + cwGo true cs

/-- `body.split(/\s+/).filter(Boolean).length`. -/
def countWords (l : List Char) : Nat := cwGo false l

/-- The `bodyPlain` pipeline of `buildIndexEntry`: first paragraph with
images removed, links replaced, inline code removed, line markers
stripped, emphasis unwrapped, whitespace collapsed, then trimmed. -/
def bodyPlain (body : List Char) : List Char :=
  let fp := firstPara body
  let s1 := runScan tryImage fp
  let s2 := runScan tryLink s1
  let s3 := runScan tryCode s2
  let s4 := markerScan s3.length true s3
  let s5 := runScan tryEmph s4
  jsTrimL (runRep jsWs ' ' false s5)

/-! ## IndexBuilder: `buildIndexEntry` -/

/-- A JSON value of an index record: string, number, or string array. -/
inductive JVal where
  | s (v : String)
  | n (v : Nat)
  | arr (v : List String)
deriving DecidableEq, Repr

/-- An index record: ordered field assignments, as in the emitted JSON. -/
abbrev Entry := List (String × JVal)

/-- Keep a field, per the `remove empty optionals` filter of
`buildIndexEntry`: drop strict-equal empty strings and empty arrays. -/
def keepField (p : String × JVal) : Bool :=
  match p.2 with
  | .s v => !(v == "")
  | .arr v => !v.isEmpty
  | .n _ => true

/-- `buildIndexEntry` (tools/validate-news.mjs): derived slug and date,
body statistics, excerpt with precedence
`excerpt, summary, description, bodyPlain`, assembled record with the
empty optionals removed. -/
def buildIndexEntry (filename : String) (yaml : List (String × FieldValue))
    (markdown : String) : Entry :=
  let title := getField yaml "title"
  let slugF := getField yaml "slug"
  let slug := if truthy slugF then jsStringD slugF else toSlug (jsStringOr title)
  let date := toIsoDate (getField yaml "date")
  let pathAbs := "/content/news/" ++ filename
  let body := bodyBlock markdown
  let words := countWords body
  let rtm := max 1 ((words + 199) / 200)
  let cand :=
    if truthy (getField yaml "excerpt") then jsStringD (getField yaml "excerpt")
    else if truthy (getField yaml "summary") then jsStringD (getField yaml "summary")
    else if truthy (getField yaml "description") then jsStringD (getField yaml "description")
    else ⟨bodyPlain body⟩
  let excerpt := truncate180 cand
  let base : Entry :=
    [("id", .s (date ++ "-" ++ slug)),
     ("title", .s (jsStringOr title)),
     ("date", .s date),
     ("author", .s (jsStringOr (getField yaml "author"))),
     ("summary", .s (jsOr2 (getField yaml "summary") (getField yaml "description"))),
     ("excerpt", .s excerpt),
     ("description", .s excerpt),
     ("hero", .s (jsOr2 (getField yaml "hero") (getField yaml "image"))),
     ("imageAlt", .s (jsOr2 (getField yaml "imageAlt") title)),
     ("tags", .arr (normalizeTags (getField yaml "tags"))),
     ("slug", .s slug),
     ("filename", .s filename),
     ("path", .s pathAbs),
     ("link", .s pathAbs),
     ("readingTimeMinutes", .n rtm),
     ("readingTimeLabel", .s (toString rtm ++ " min"))]
  base.filter keepField

/-! ## The validate path: `main` of `tools/validate-news.mjs` -/

/-- A directory entry as seen by the pipeline: a file name and the result
of `readFileSafe` (`none` for an unreadable file). -/
structure SrcFile where
  name : String
  content : Option String
deriving DecidableEq, Repr

/-- `listMarkdown`: keep the files whose lowercased name ends in `.md`. -/
def mdFilter (files : List SrcFile) : List SrcFile :=
  files.filter (fun f => ['.', 'm', 'd'].isSuffixOf (f.name.data.map jsLowerChar))

/-- Field lookup in an emitted record (`b.date` on a record object);
record keys are unique, so the first binding is the binding. -/
def getEntry (e : Entry) (k : String) : Option JVal :=
  (e.find? (fun p => p.1 == k)).map (·.2)

/-- `String(e.date || '')` on an emitted record of the validate path. -/
def entryDate (e : Entry) : String :=
  match getEntry e "date" with
  | some (.s s) => s
  | _ => ""

/-- One iteration of the file loop of `main`: an unreadable file sets the
error flag and produces no entry; every readable file contributes its
entry regardless of its validation errors. -/
def mainStep (acc : List Entry × Bool) (f : SrcFile) : List Entry × Bool :=
  match f.content with
  | none => (acc.1, true)
  | some raw =>
    let yaml := parseFrontmatter raw
    let errs := validateErrors yaml f.name
    (acc.1 ++ [buildIndexEntry f.name (yaml.getD []) raw],
     acc.2 || !errs.isEmpty)

/-- The file loop of `main`: accumulated entries and the `hasErrors`
flag. -/
def mainScan (files : List SrcFile) : List Entry × Bool :=
  (mdFilter files).foldl mainStep ([], false)

/-- The sort comparator of `main`:
`(a,b) => String(b.date || '').localeCompare(String(a.date || ''))`;
`le a b` holds when the comparator is nonpositive, i.e. when `a` may stay
before `b`: date descending. -/
def mainLe (a b : Entry) : Bool :=
  lexLe (entryDate b).data (entryDate a).data

/-- The entry list written to `content/news/index.json` by `main`
(date-descending). -/
def mainEntries (files : List SrcFile) : List Entry :=
  jsSort mainLe (mainScan files).1

/-- The process exit code of a `main` run: `1` exactly when `hasErrors`
was set; an empty content directory returns early with code `0`. -/
def mainExitCode (files : List SrcFile) : Nat :=
  if (mdFilter files).isEmpty then 0
  else if (mainScan files).2 then 1 else 0

/-- The index written by `main`: `none` when the early return for an
empty directory skips the write, otherwise the sorted entries. -/
def mainIndex (files : List SrcFile) : Option (List Entry) :=
  if (mdFilter files).isEmpty then none else some (mainEntries files)

/-! ## The CLI path: `rebuildIndex` of the news CLI -/

/-- One header line of the CLI parser: destructure `line.split(':')` into
its head and tail, require a truthy raw key and at least one colon, join
and trim the value, read bracket lists (comma-split and trimmed, with no
empty filtering) and strip double quotes only. -/
def rParseLine (line : String) : Option (String × FieldValue) :=
  match jsSplitChar ':' line with
  | key :: r :: rest =>
    if key == "" then none
    else
      let v := jsTrimL (joinSep ':' ((r :: rest).map String.data))
      if v.head? == some '[' && v.getLast? == some ']' then
        some (jsTrim key, .list ((jsSplitChar ',' ⟨(v.drop 1).dropLast⟩).map jsTrim))
      else if v.head? == some '"' && v.getLast? == some '"' then
        some (jsTrim key, .str ⟨(v.drop 1).dropLast⟩)
      else some (jsTrim key, .str ⟨v⟩)
  | _ => none

/-- Ws-run counter for `split(/\s+/).length`: the number of separator
matches; splitting yields one more piece than separators. -/
def wrGo : Bool → List Char → Nat
  | _, [] => 0
  | inRun, c :: cs =>
    if jsWs c then (if inRun then 0 else 1) + wrGo true cs
    else wrGo false cs

/-- `body.split(/\s+/).length` (no Boolean filter in the CLI path). -/
def rSplitCount (l : List Char) : Nat := wrGo false l + 1

/-- A parsed frontmatter value as a JSON value of the emitted record. -/
def jvalOf : FieldValue → JVal
  | .str s => .s s
  | .list l => .arr l

/-- `v || ''` kept as a record value (arrays pass through unchanged). -/
def jsOrVal (v : Option FieldValue) : JVal :=
  if truthy v then jvalOf (v.getD (.str "")) else .s ""

/-- `a || b || ''` kept as a record value. -/
def jsOrVal2 (a b : Option FieldValue) : JVal :=
  if truthy a then jvalOf (a.getD (.str ""))
  else if truthy b then jvalOf (b.getD (.str "")) else .s ""

/-- Template-literal interpolation of a possibly-absent field. -/
def jsTemplateOpt (v : Option FieldValue) : String :=
  match v with
  | none => "undefined"
  | some x => jsString x

/-- The per-file body of the `rebuildIndex` loop: `none` models `continue`
(missing frontmatter) and the per-file `catch` (the `TypeError` thrown by
`generateSlug` when `slug` is falsy and `title` is not a string); `some`
is the record pushed onto `posts`, with no empty-field filtering. -/
def rebuildPost (file : String) (content : String) : Option Entry :=
  match fmBlock content with
  | none => none
  | some b =>
    let yaml := (jsSplitChar '\n' ⟨b⟩).filterMap rParseLine
    let title := getField yaml "title"
    let slugF := getField yaml "slug"
    let slugStr : Option String :=
      if truthy slugF then some (jsStringD slugF)
      else
        match title with
        | some (.str t) => some (generateSlug t)
        | _ => none
    match slugStr with
    | none => none
    | some slugS =>
      let body := bodyBlock content
      let rtm := (rSplitCount body + 199) / 200
      some
        [("id", .s (jsTemplateOpt (getField yaml "date") ++ "-" ++ slugS)),
         ("title", jsOrVal title),
         ("date", jsOrVal (getField yaml "date")),
         ("author", jsOrVal (getField yaml "author")),
         ("summary", jsOrVal (getField yaml "summary")),
         ("image", jsOrVal (getField yaml "image")),
         ("imageAlt", jsOrVal2 (getField yaml "imageAlt") title),
         ("tags", match getField yaml "tags" with
                  | some (.list l) => .arr l
                  | _ => .arr []),
         ("slug", if truthy slugF then jvalOf (slugF.getD (.str "")) else .s slugS),
         ("filename", .s file),
         ("path", .s ("/content/news/" ++ file)),
         ("link", .s ("/content/news/" ++ file)),
         ("readingTimeMinutes", .n rtm),
         ("readingTimeLabel", .s (toString rtm ++ " min"))]

/-- The `posts` list assembled by `rebuildIndex`: files ending in `.md`
(case-sensitive here), unreadable or unparseable ones skipped. -/
def rebuildPosts (files : List SrcFile) : List Entry :=
  (files.filter (fun f => ['.', 'm', 'd'].isSuffixOf f.name.data)).foldl
    (fun acc f =>
      match f.content with
      | none => acc
      | some content =>
        match rebuildPost f.name content with
        | none => acc
        | some p => acc ++ [p]) []

/-- The date string the CLI comparator feeds to `new Date`: the record's
`date` value coerced to a string. -/
def rDate (e : Entry) : String :=
  match getEntry e "date" with
  | some (.s s) => s
  | some (.arr l) => ⟨joinSep ',' (l.map String.data)⟩
  | _ => ""

/-- The CLI sort comparator `(a,b) => new Date(b.date) - new Date(a.date)`:
`le a b` when the comparator value is nonpositive; a `NaN` comparator
value is treated as `+0` by the sort, keeping the relative order. -/
def rebuildLe (a b : Entry) : Bool :=
  match jsDateMillis (rDate a), jsDateMillis (rDate b) with
  | some x, some y => decide (y - x ≤ 0)
  | _, _ => true

/-- The index written by `rebuild-index`: the per-file records, sorted by
parsed date descending. -/
def rebuildIndex (files : List SrcFile) : List Entry :=
  jsSort rebuildLe (rebuildPosts files)

/-! ## Concrete units used by the claims -/

/-- C1: a unit whose `date` is the impossible calendar date `2024-13-40`,
in canonical `YYYY-MM-DD` shape. -/
def c1File : SrcFile :=
  ⟨"2024-13-40-obvestilo.md",
   some "---\ntitle: Pomembno obvestilo\ndate: 2024-13-40\n---\n\nVsebina novice ob koncu leta.\n"⟩

example : validateErrors (parseFrontmatter ((c1File.content).getD ""))
    c1File.name = [] := by decide
example : mainExitCode [c1File] = 0 := by decide

/-- C2: a unit file with no frontmatter block at all. -/
def c2NoFm : SrcFile :=
  ⟨"2024-01-01-brez.md", some "Samo besedilo brez glave.\n"⟩

example : rebuildPosts [c2NoFm] = [] := by decide
example : (mainScan [c2NoFm]).1.length = 1 := by decide

/-- C3: three well-dated units, listed in the claim's input order. -/
def c3f1 : SrcFile :=
  ⟨"2024-01-01-prva.md", some "---\ntitle: Prva\ndate: 2024-01-01\n---\n\nPrva novica.\n"⟩

def c3f2 : SrcFile :=
  ⟨"2024-06-15-druga.md", some "---\ntitle: Druga\ndate: 2024-06-15\n---\n\nDruga novica.\n"⟩

def c3f3 : SrcFile :=
  ⟨"2023-12-31-tretja.md", some "---\ntitle: Tretja\ndate: 2023-12-31\n---\n\nTretja novica.\n"⟩

example : (mainEntries [c3f1, c3f2, c3f3]).map entryDate
    = ["2024-06-15", "2024-01-01", "2023-12-31"] := by decide
example : (rebuildIndex [c3f1, c3f2, c3f3]).map rDate
    = ["2024-06-15", "2024-01-01", "2023-12-31"] := by decide

/-- C3: a unit with the malformed date string `aaa`. -/
def c3g1 : SrcFile :=
  ⟨"2024-01-01-ena.md", some "---\ntitle: Ena\ndate: aaa\n---\n\nEna.\n"⟩

/-- C3: a unit with the malformed date string `bbb`, listed after `aaa`. -/
def c3g2 : SrcFile :=
  ⟨"2024-01-02-dva.md", some "---\ntitle: Dva\ndate: bbb\n---\n\nDva.\n"⟩

example : (rebuildIndex [c3g1, c3g2]).map rDate = ["aaa", "bbb"] := by decide
example : (mainEntries [c3g1, c3g2]).map entryDate = ["bbb", "aaa"] := by decide

/-- C4: a 220-character paragraph of space-separated words. -/
def c4Para : String := String.join (List.replicate 31 "beseda ") ++ "xyz"

/-- C4: a unit whose body's first paragraph is `c4Para`, with no explicit
excerpt, summary or description. -/
def c4File : SrcFile :=
  ⟨"2024-05-05-dolga.md",
   some ("---\ntitle: Dolga novica\ndate: 2024-05-05\n---\n\n" ++ c4Para ++ "\n")⟩

/-- C4: the excerpt the pipeline computes for `c4File`: cut at the last
space before the limit (index 174), with the ellipsis appended. -/
def c4Expected : String := String.join (List.replicate 24 "beseda ") ++ "beseda…"

example : c4Para.length = 220 := by decide
example : getEntry (buildIndexEntry c4File.name
    ((parseFrontmatter (c4File.content.getD "")).getD []) (c4File.content.getD ""))
    "excerpt" = some (.s c4Expected) := by decide
example : c4Expected.length = 175 := by decide

/-- C5: a unit with title, slug and date but no author. -/
def c5File : SrcFile :=
  ⟨"2024-01-01-naslov.md",
   some "---\ntitle: Naslov\nslug: naslov\ndate: 2024-01-01\n---\n\nVsebina novice.\n"⟩

example : (rebuildIndex [c5File]).map (fun e => getEntry e "author")
    = [some (.s "")] := by decide
example : getEntry (buildIndexEntry c5File.name
    ((parseFrontmatter (c5File.content.getD "")).getD []) (c5File.content.getD ""))
    "author" = none := by decide

/-- C7: tags given as an inline bracket list. -/
def c7RawA : String := "---\ntitle: T\ntags: [news, community]\n---\n\nBesedilo.\n"

/-- C7: tags given as a quoted comma string. -/
def c7RawB : String := "---\ntitle: T\ntags: \"news, community\"\n---\n\nBesedilo.\n"

example : normalizeTags (getField ((parseFrontmatter c7RawA).getD []) "tags")
    = ["news", "community"] := by decide
example : normalizeTags (getField ((parseFrontmatter c7RawB).getD []) "tags")
    = ["news", "community"] := by decide

/-- C8: a unit with title `X`, date `2024-03-05` and no slug field. -/
def c8File : SrcFile :=
  ⟨"2024-03-05-x.md",
   some "---\ntitle: \"X\"\ndate: 2024-03-05\n---\n\nKratka vsebina novice.\n"⟩

example : getEntry (buildIndexEntry c8File.name
    ((parseFrontmatter (c8File.content.getD "")).getD []) (c8File.content.getD ""))
    "slug" = some (.s "x") := by decide
example : getEntry (buildIndexEntry c8File.name
    ((parseFrontmatter (c8File.content.getD "")).getD []) (c8File.content.getD ""))
    "id" = some (.s "2024-03-05-x") := by decide

/-! ## Order lemmas for the sort model -/

theorem lexLe_total (a b : List Char) : lexLe a b = true ∨ lexLe b a = true := by
  induction a generalizing b with
  | nil => left; rfl
  | cons x xs ih =>
    cases b with
    | nil => right; rfl
    | cons y ys =>
      rcases Nat.lt_trichotomy x.toNat y.toNat with h | h | h
      · left; simp [lexLe, h]
      · rcases ih ys with h2 | h2
        · left; simp [lexLe, h, h2]
        · right; simp [lexLe, h, h2]
      · right; simp [lexLe, h, Nat.lt_asymm h]

theorem lexLe_trans (a b c : List Char) (hab : lexLe a b = true)
    (hbc : lexLe b c = true) : lexLe a c = true := by
  induction a generalizing b c with
  | nil => rfl
  | cons x xs ih =>
    cases b with
    | nil => simp [lexLe] at hab
    | cons y ys =>
      cases c with
      | nil => simp [lexLe] at hbc
      | cons z zs =>
        simp only [lexLe] at hab hbc ⊢
        rcases Nat.lt_trichotomy x.toNat y.toNat with h1 | h1 | h1
        · rcases Nat.lt_trichotomy y.toNat z.toNat with h2 | h2 | h2
          · rw [if_pos (Nat.lt_trans h1 h2)]
          · rw [if_pos (h2 ▸ h1)]
          · rw [if_neg (Nat.lt_asymm h2), if_pos h2] at hbc
            simp at hbc
        · rw [if_neg (by omega), if_neg (by omega)] at hab
          rcases Nat.lt_trichotomy y.toNat z.toNat with h2 | h2 | h2
          · rw [if_pos (by omega)]
          · rw [if_neg (by omega), if_neg (by omega)] at hbc
            rw [if_neg (by omega), if_neg (by omega)]
            exact ih ys zs hab hbc
          · rw [if_neg (Nat.lt_asymm h2), if_pos h2] at hbc
            simp at hbc
        · rw [if_neg (Nat.lt_asymm h1), if_pos h1] at hab
          simp at hab

/-! ## Structural lemmas about the insertion-sort model -/

theorem insertA_perm (le : α → α → Bool) (x : α) (l : List α) :
    List.Perm (insertA le x l) (x :: l) := by
  induction l with
  | nil => exact List.Perm.refl _
  | cons y ys ih =>
    by_cases h : le y x = true
    · simp only [insertA, h, if_true]
      exact ((ih.cons y).trans (List.Perm.swap x y ys)).symm.symm
    · simp only [insertA, h, if_false]
      exact List.Perm.refl _

theorem jsSort_perm_aux (le : α → α → Bool) (l acc : List α) :
    List.Perm ((l.foldl (fun acc x => insertA le x acc) acc)) (acc ++ l) := by
  induction l generalizing acc with
  | nil => simp
  | cons x xs ih =>
    simp only [List.foldl_cons]
    refine (ih (insertA le x acc)).trans ?_
    have h1 : List.Perm (insertA le x acc ++ xs) ((x :: acc) ++ xs) :=
      (insertA_perm le x acc).append_right xs
    refine h1.trans ?_
    simpa using List.perm_middle.symm

theorem jsSort_perm (le : α → α → Bool) (l : List α) :
    List.Perm (jsSort le l) l := by
  simpa using jsSort_perm_aux le l []

theorem mem_insertA (le : α → α → Bool) (x z : α) (l : List α) :
    z ∈ insertA le x l ↔ z = x ∨ z ∈ l :=
  ((insertA_perm le x l).mem_iff).trans (by simp)

theorem insertA_pairwise (le : α → α → Bool)
    (htr : ∀ a b c, le a b = true → le b c = true → le a c = true)
    (hto : ∀ a b, le a b = true ∨ le b a = true)
    (x : α) (l : List α) (hl : List.Pairwise (fun a b => le a b = true) l) :
    List.Pairwise (fun a b => le a b = true) (insertA le x l) := by
  induction l with
  | nil => simp [insertA]
  | cons y ys ih =>
    rcases List.pairwise_cons.mp hl with ⟨hy, hys⟩
    by_cases h : le y x = true
    · simp only [insertA, h, if_true]
      refine List.pairwise_cons.mpr ⟨?_, ih hys⟩
      intro z hz
      rcases (mem_insertA le x z ys).mp hz with rfl | hz2
      · exact h
      · exact hy z hz2
    · simp only [insertA, h, if_false]
      have hxy : le x y = true := (hto x y).resolve_right (by simpa using h)
      refine List.pairwise_cons.mpr ⟨?_, hl⟩
      intro z hz
      rcases hz with _ | hz2
      · exact hxy
      · exact htr x y z hxy (hy z (by assumption))

theorem jsSort_pairwise_aux (le : α → α → Bool)
    (htr : ∀ a b c, le a b = true → le b c = true → le a c = true)
    (hto : ∀ a b, le a b = true ∨ le b a = true)
    (l acc : List α) (hacc : List.Pairwise (fun a b => le a b = true) acc) :
    List.Pairwise (fun a b => le a b = true)
      (l.foldl (fun acc x => insertA le x acc) acc) := by
  induction l generalizing acc with
  | nil => simpa using hacc
  | cons x xs ih =>
    simp only [List.foldl_cons]
    exact ih (insertA le x acc) (insertA_pairwise le htr hto x acc hacc)

theorem jsSort_pairwise (le : α → α → Bool)
    (htr : ∀ a b c, le a b = true → le b c = true → le a c = true)
    (hto : ∀ a b, le a b = true ∨ le b a = true) (l : List α) :
    List.Pairwise (fun a b => le a b = true) (jsSort le l) :=
  jsSort_pairwise_aux le htr hto l [] List.Pairwise.nil

/-! ## Shape invariants of the slug pipeline -/

/-- All characters of a collapsed slug candidate are lowercase
alphanumerics or hyphens. -/
def slugChars (l : List Char) : Prop :=
  ∀ c ∈ l, isLowerAlnum c = true ∨ c = '-'

/-- Adjacent characters are never both hyphens. -/
def noAdjHy (a b : Char) : Prop :=
  ¬(a = '-' ∧ b = '-')

theorem alnum_ne_hyphen {c : Char} (h : isLowerAlnum c = true) : c ≠ '-' := by
  intro e
  subst e
  exact absurd h (by decide)

theorem collapseRuns_slugChars (l : List Char) : slugChars (collapseRuns l) := by
  induction l with
  | nil => intro c hc; simp [collapseRuns] at hc
  | cons c cs ih =>
    by_cases hc : isLowerAlnum c = true
    · intro d hd
      simp only [collapseRuns, hc, if_true] at hd
      rcases hd with _ | hd2
      · exact Or.inl hc
      · exact ih d (by assumption)
    · intro d hd
      simp only [collapseRuns, hc, if_false] at hd
      by_cases hh : (collapseRuns cs).head? = some '-'
      · rw [if_pos hh] at hd
        exact ih d hd
      · rw [if_neg hh] at hd
        rcases hd with _ | hd2
        · exact Or.inr rfl
        · exact ih d (by assumption)

theorem collapseRuns_chain (l : List Char) :
    List.Chain' noAdjHy (collapseRuns l) := by
  induction l with
  | nil => simp [collapseRuns]
  | cons c cs ih =>
    by_cases hc : isLowerAlnum c = true
    · simp only [collapseRuns, hc, if_true]
      refine List.chain'_cons'.mpr ⟨?_, ih⟩
      intro y _
      exact fun hp => absurd hp.1 (alnum_ne_hyphen hc)
    · simp only [collapseRuns, hc, if_false]
      by_cases hh : (collapseRuns cs).head? = some '-'
      · rw [if_pos hh]; exact ih
      · rw [if_neg hh]
        refine List.chain'_cons'.mpr ⟨?_, ih⟩
        intro y hy
        intro hp
        exact hh (by simpa [hp.2] using hy)

theorem stripLead_slugChars {l : List Char} (h : slugChars l) :
    slugChars (stripLead l) := by
  cases l with
  | nil => exact h
  | cons c t =>
    by_cases hc : c = '-'
    · simpa only [stripLead, hc, if_pos] using fun d hd => h d (List.mem_cons_of_mem _ hd)
    · simpa only [stripLead, hc, if_neg, if_false] using h

theorem stripLead_chain {l : List Char} (h : List.Chain' noAdjHy l) :
    List.Chain' noAdjHy (stripLead l) := by
  cases l with
  | nil => exact h
  | cons c t =>
    by_cases hc : c = '-'
    · simp only [stripLead, hc, if_pos]
      exact h.tail
    · simpa only [stripLead, hc, if_neg, if_false] using h

theorem stripLead_head {l : List Char} (h : List.Chain' noAdjHy l) :
    (stripLead l).head? ≠ some '-' := by
  cases l with
  | nil => simp [stripLead]
  | cons c t =>
    by_cases hc : c = '-'
    · simp only [stripLead, hc, if_pos]
      intro he
      have := (List.chain'_cons'.mp h).1
      cases t with
      | nil => simp at he
      | cons d ds =>
        simp only [List.head?_cons, Option.some.injEq] at he
        exact this d rfl ⟨hc, he⟩
    · simp only [stripLead, hc, if_neg, if_false, List.head?_cons]
      exact fun he => hc (by simpa using he)

theorem stripLead_last {l : List Char} :
    (stripLead l).getLast? = l.getLast? ∨ stripLead l = [] := by
  cases l with
  | nil => exact Or.inr rfl
  | cons c t =>
    by_cases hc : c = '-'
    · simp only [stripLead, hc, if_pos]
      cases t with
      | nil => exact Or.inr rfl
      | cons d ds => exact Or.inl (by simp [List.getLast?_cons_cons])
    · simp [stripLead, hc]

theorem slugScan_of_shape (l : List Char) (hok : slugChars l)
    (hch : List.Chain' noAdjHy l) :
    (l.getLast? ≠ some '-' → slugScan l true = true) ∧
    (l.getLast? ≠ some '-' → l.head? ≠ some '-' → l ≠ [] →
      slugScan l false = true) := by
  induction l with
  | nil =>
    refine ⟨fun _ => rfl, fun _ _ h => absurd rfl h⟩
  | cons c cs ih =>
    have hok2 : slugChars cs := fun d hd => hok d (List.mem_cons_of_mem _ hd)
    obtain ⟨iht, ihf⟩ := ih hok2 hch.tail
    have hstep : ∀ h : isLowerAlnum c = true,
        (c :: cs).getLast? ≠ some '-' → slugScan (c :: cs) true = true ∧
          slugScan (c :: cs) false = true := by
      intro h hlast
      have hgoal : slugScan cs true = true := by
        cases cs with
        | nil => rfl
        | cons d ds =>
          exact iht (by simpa [List.getLast?_cons_cons] using hlast)
      constructor
      · simpa [slugScan, h] using hgoal
      · simpa [slugScan, h] using hgoal
    constructor
    · intro hlast
      by_cases hc : isLowerAlnum c = true
      · exact (hstep hc hlast).1
      · have hc2 : c = '-' := (hok c (List.mem_cons_self c cs)).resolve_left hc
        subst hc2
        cases cs with
        | nil => simp at hlast
        | cons d ds =>
          have hhead : (d :: ds).head? ≠ some '-' := by
            intro he
            have h1 := (List.chain'_cons'.mp hch).1
            simp only [List.head?_cons, Option.some.injEq] at he
            exact h1 d rfl ⟨rfl, he⟩
          have hlast2 : (d :: ds).getLast? ≠ some '-' := by
            simpa [List.getLast?_cons_cons] using hlast
          have hres := ihf hlast2 hhead (by simp)
          simpa [slugScan] using hres
    · intro hlast hhead hne
      have hc : c ≠ '-' := fun e => hhead (by simp [e])
      have hcal : isLowerAlnum c = true := (hok c (List.mem_cons_self c cs)).resolve_right hc
      exact (hstep hcal hlast).2

theorem chain_noAdjHy_reverse {l : List Char} (h : List.Chain' noAdjHy l) :
    List.Chain' noAdjHy l.reverse := by
  rw [List.chain'_reverse]
  exact h.imp (fun a b hab hp => hab ⟨hp.2, hp.1⟩)

theorem stripEdge_shape (l : List Char) (hok : slugChars l)
    (hch : List.Chain' noAdjHy l) :
    stripEdge l = [] ∨ slugScan (stripEdge l) false = true := by
  have hok1 : slugChars (stripLead l) := stripLead_slugChars hok
  have hch1 : List.Chain' noAdjHy (stripLead l) := stripLead_chain hch
  have hh1 : (stripLead l).head? ≠ some '-' := stripLead_head hch
  have hokz : slugChars (stripLead (stripLead l).reverse) :=
    stripLead_slugChars (fun c hc => hok1 c (List.mem_reverse.mp hc))
  have hchz : List.Chain' noAdjHy (stripLead (stripLead l).reverse) :=
    stripLead_chain (chain_noAdjHy_reverse hch1)
  have hhz : (stripLead (stripLead l).reverse).head? ≠ some '-' :=
    stripLead_head (chain_noAdjHy_reverse hch1)
  by_cases hze : stripLead (stripLead l).reverse = []
  · left
    simp [stripEdge, hze]
  · right
    have hokf : slugChars (stripEdge l) :=
      fun c hc => hokz c (List.mem_reverse.mp hc)
    have hchf : List.Chain' noAdjHy (stripEdge l) :=
      chain_noAdjHy_reverse hchz
    have hlastf : (stripEdge l).getLast? ≠ some '-' := by
      rw [stripEdge, List.getLast?_reverse]
      exact hhz
    have hheadf : (stripEdge l).head? ≠ some '-' := by
      rw [stripEdge, List.head?_reverse]
      rcases stripLead_last (l := (stripLead l).reverse) with he | he
      · rw [he, List.getLast?_reverse]
        exact hh1
      · exact absurd he hze
    have hnef : stripEdge l ≠ [] := by
      rw [stripEdge]
      simpa using hze
    exact (slugScan_of_shape (stripEdge l) hokf hchf).2 hlastf hheadf hnef

/-! ## The specification reading of the slug algorithm -/

theorem stripLead_eq_dropWhile {l : List Char} (h : List.Chain' noAdjHy l) :
    stripLead l = l.dropWhile (fun c => c == '-') := by
  cases l with
  | nil => rfl
  | cons c t =>
    by_cases hc : c = '-'
    · subst hc
      have hd : t.dropWhile (fun c => c == '-') = t := by
        cases t with
        | nil => rfl
        | cons d ds =>
          have hne : d ≠ '-' := by
            intro e
            exact (List.chain'_cons'.mp h).1 d rfl ⟨rfl, e⟩
          simp [List.dropWhile_cons, hne]
      simp [stripLead, hd, List.dropWhile_cons]
    · simp [stripLead, hc, List.dropWhile_cons]

/-- `slugify` as §4.2 of the specification words it: trim, lowercase,
decompose accented characters and drop combining marks, replace any run
of characters outside `[a-z0-9]` with a single hyphen, then strip the
leading and trailing hyphens.  This definition follows the
specification's words — in particular it strips every edge hyphen —
while `toSlug` is the source translation, which removes one hyphen at
each end. -/
def slugifySpec (input : String) : String :=
  ⟨(((collapseRuns
      (((jsTrimL input.data).map jsLowerChar).flatMap nfdChar |>.filter
        (fun c => !isCombiningMark c))).dropWhile (fun c => c == '-')).reverse.dropWhile
      (fun c => c == '-')).reverse⟩

theorem stripEdge_eq_dropAll {l : List Char} (hch : List.Chain' noAdjHy l) :
    stripEdge l =
      ((l.dropWhile (fun c => c == '-')).reverse.dropWhile (fun c => c == '-')).reverse := by
  have h1 : stripLead l = l.dropWhile (fun c => c == '-') :=
    stripLead_eq_dropWhile hch
  have hch2 : List.Chain' noAdjHy (stripLead l).reverse :=
    chain_noAdjHy_reverse (stripLead_chain hch)
  have h2 : stripLead ((stripLead l).reverse) =
      (stripLead l).reverse.dropWhile (fun c => c == '-') :=
    stripLead_eq_dropWhile hch2
  rw [stripEdge, h2, h1]

/-! ## Facts about `lastSpaceIdx` and `truncate180` -/

theorem lastSpaceIdx_getElem {l : List Char} {i : Nat}
    (h : lastSpaceIdx l = some i) : l[i]? = some ' ' := by
  induction l generalizing i with
  | nil => simp [lastSpaceIdx] at h
  | cons c cs ih =>
    simp only [lastSpaceIdx] at h
    cases hr : lastSpaceIdx cs with
    | some j =>
      rw [hr] at h
      simp only [Option.some.injEq] at h
      subst h
      simpa using ih hr
    | none =>
      rw [hr] at h
      by_cases hc : c = ' '
      · rw [if_pos hc] at h
        simp only [Option.some.injEq] at h
        subst h
        simp [hc]
      · rw [if_neg hc] at h
        exact absurd h (by simp)

theorem lastSpaceIdx_lt {l : List Char} {i : Nat}
    (h : lastSpaceIdx l = some i) : i < l.length := by
  induction l generalizing i with
  | nil => simp [lastSpaceIdx] at h
  | cons c cs ih =>
    simp only [lastSpaceIdx] at h
    cases hr : lastSpaceIdx cs with
    | some j =>
      rw [hr] at h
      simp only [Option.some.injEq] at h
      subst h
      simpa using ih hr
    | none =>
      rw [hr] at h
      by_cases hc : c = ' '
      · rw [if_pos hc] at h
        simp only [Option.some.injEq] at h
        subst h
        simp
      · rw [if_neg hc] at h
        exact absurd h (by simp)

theorem jsTrimL_length_le (l : List Char) : (jsTrimL l).length ≤ l.length := by
  unfold jsTrimL
  calc ((l.dropWhile jsWs).reverse.dropWhile jsWs).reverse.length
      = ((l.dropWhile jsWs).reverse.dropWhile jsWs).length := by simp
    _ ≤ (l.dropWhile jsWs).reverse.length := (List.dropWhile_sublist _).length_le
    _ = (l.dropWhile jsWs).length := by simp
    _ ≤ l.length := (List.dropWhile_sublist _).length_le

/-! ## Structure of the validate-path run -/

/-- The record `main` builds for one file, when the file is readable. -/
def mainEntryOf (f : SrcFile) : Option Entry :=
  f.content.map (fun raw => buildIndexEntry f.name ((parseFrontmatter raw).getD []) raw)

/-- Whether one file contributes to the `hasErrors` flag of `main`:
unreadable, or carrying at least one hard validation error. -/
def mainErrOf (f : SrcFile) : Bool :=
  match f.content with
  | none => true
  | some raw => !(validateErrors (parseFrontmatter raw) f.name).isEmpty

theorem mainScan_entries_aux (l : List SrcFile) (acc : List Entry) (e : Bool) :
    (l.foldl mainStep (acc, e)).1 = acc ++ l.filterMap mainEntryOf := by
  induction l generalizing acc e with
  | nil => simp
  | cons f fs ih =>
    cases hc : f.content with
    | none =>
      have hs : mainStep (acc, e) f = (acc, true) := by simp [mainStep, hc]
      simp only [List.foldl_cons, hs, ih]
      simp [mainEntryOf, hc]
    | some raw =>
      have hs : mainStep (acc, e) f =
          (acc ++ [buildIndexEntry f.name ((parseFrontmatter raw).getD []) raw],
           e || !(validateErrors (parseFrontmatter raw) f.name).isEmpty) := by
        simp [mainStep, hc]
      simp only [List.foldl_cons, hs, ih]
      simp [mainEntryOf, hc]

theorem mainScan_entries (files : List SrcFile) :
    (mainScan files).1 = (mdFilter files).filterMap mainEntryOf := by
  simpa using mainScan_entries_aux (mdFilter files) [] false

theorem mainScan_flag_aux (l : List SrcFile) (acc : List Entry) (e : Bool) :
    (l.foldl mainStep (acc, e)).2 = (e || l.any mainErrOf) := by
  induction l generalizing acc e with
  | nil => simp
  | cons f fs ih =>
    cases hc : f.content with
    | none =>
      have hs : mainStep (acc, e) f = (acc, true) := by simp [mainStep, hc]
      simp only [List.foldl_cons, hs, ih]
      simp [mainErrOf, hc]
    | some raw =>
      have hs : mainStep (acc, e) f =
          (acc ++ [buildIndexEntry f.name ((parseFrontmatter raw).getD []) raw],
           e || !(validateErrors (parseFrontmatter raw) f.name).isEmpty) := by
        simp [mainStep, hc]
      simp only [List.foldl_cons, hs, ih]
      simp [mainErrOf, hc, Bool.or_assoc]

theorem mainScan_flag (files : List SrcFile) :
    (mainScan files).2 = (mdFilter files).any mainErrOf := by
  simpa using mainScan_flag_aux (mdFilter files) [] false

theorem mainErrOf_eq_false_iff (f : SrcFile) :
    mainErrOf f = false ↔
      ∃ raw, f.content = some raw ∧ validateErrors (parseFrontmatter raw) f.name = [] := by
  cases hc : f.content with
  | none => simp [mainErrOf, hc]
  | some raw =>
    simp [mainErrOf, hc, List.isEmpty_iff]

/-! ## Claim theorems -/

theorem tags_error_nil (v : Option FieldValue) :
    (match v with
     | some (.list _) => ([] : List String)
     | _ => []) = [] := by
  rcases v with _ | v
  · rfl
  · rcases v with s | l <;> rfl

theorem date_error_mem_iff (y : List (String × FieldValue)) (fn : String) :
    "date must be YYYY-MM-DD" ∈ validateErrors (some y) fn ↔
      (truthy (getField y "date") = false ∨
       dateShape (jsStringD (getField y "date")) = false) := by
  have hb : (truthy (getField y "date") = false ∨
      dateShape (jsStringD (getField y "date")) = false) ↔
      (!truthy (getField y "date") ||
        !dateShape (jsStringD (getField y "date"))) = true := by
    simp
  rw [hb]
  by_cases hd : (!truthy (getField y "date") ||
      !dateShape (jsStringD (getField y "date"))) = true
  · simp [validateErrors, hd, tags_error_nil]
  · simp only [validateErrors, tags_error_nil, hd, if_false]
    simp only [Bool.not_eq_true] at hd
    simp [hd, List.mem_append]

/-- Claim C1, counterexample: the unit `c1File` with `date: "2024-13-40"`
produces no hard error at all — in particular not
`date must be YYYY-MM-DD` — and the run exits with status zero, contrary
to the claim's asserted hard error and nonzero exit. -/
theorem c1_counterexample :
    validateErrors (parseFrontmatter (c1File.content.getD "")) c1File.name = [] ∧
    mainExitCode [c1File] = 0 :=
  ⟨by decide, by decide⟩

/-- Claim C1 (amended): the validator's date check is a pure digit-shape
test: the hard error `date must be YYYY-MM-DD` is raised exactly when the
date field is falsy or fails the four-two-two digit shape.  The string
`2024-13-40` matches the shape, so the `c1File` unit validates with no
errors, the run exits zero, and the unit still appears in the index
(under its uncorrected date string). -/
theorem c1_date_error_is_shape_check :
    (∀ (y : List (String × FieldValue)) (fn : String),
      "date must be YYYY-MM-DD" ∈ validateErrors (some y) fn ↔
        (truthy (getField y "date") = false ∨
         dateShape (jsStringD (getField y "date")) = false)) ∧
    dateShape "2024-13-40" = true ∧
    validateErrors (parseFrontmatter (c1File.content.getD "")) c1File.name = [] ∧
    mainExitCode [c1File] = 0 ∧
    (mainEntries [c1File]).map (fun e => getEntry e "id")
      = [some (.s "2024-13-40-pomembno-obvestilo")] ∧
    mainIndex [c1File] = some (mainEntries [c1File]) :=
  ⟨date_error_mem_iff, by decide, by decide, by decide, by decide, by decide⟩

/-- Claim C2, counterexample: the rebuild-index path enumerates
`2024-01-01-brez.md` (it passes the `.md` filter) but writes an index
with no record for it, because its frontmatter block is missing and the
loop `continue`s — contradicting the claim that a unit with a missing
frontmatter block is still represented in the written index. -/
theorem c2_counterexample :
    (List.filter (fun f => ['.', 'm', 'd'].isSuffixOf f.name.data) [c2NoFm]).length = 1 ∧
    rebuildIndex [c2NoFm] = [] :=
  ⟨by decide, by decide⟩

/-- Claim C2 (amended): in the validate path the unsorted entry list is
exactly one record per readable enumerated unit, independent of the
validation outcome, and each such record is a member of the written
(sorted) index; the rebuild-index path instead skips a unit whose
frontmatter block is missing. -/
theorem c2_record_per_unit :
    (∀ files : List SrcFile,
      (mainScan files).1 = (mdFilter files).filterMap mainEntryOf) ∧
    (∀ (files : List SrcFile) (f : SrcFile) (raw : String),
      f ∈ mdFilter files → f.content = some raw →
      buildIndexEntry f.name ((parseFrontmatter raw).getD []) raw ∈ mainEntries files ∧
      mainIndex files = some (mainEntries files)) ∧
    rebuildPosts [c2NoFm] = [] := by
  refine ⟨mainScan_entries, ?_, by decide⟩
  intro files f raw hf hraw
  have h1 : mainEntryOf f =
      some (buildIndexEntry f.name ((parseFrontmatter raw).getD []) raw) := by
    simp [mainEntryOf, hraw]
  have h2 : buildIndexEntry f.name ((parseFrontmatter raw).getD []) raw
      ∈ (mainScan files).1 := by
    rw [mainScan_entries]
    exact List.mem_filterMap.mpr ⟨f, hf, h1⟩
  refine ⟨((jsSort_perm mainLe _).mem_iff).mpr h2, ?_⟩
  have hne : (mdFilter files).isEmpty = false := by
    cases hmd : mdFilter files with
    | nil => rw [hmd] at hf; simp at hf
    | cons a l => rfl
  simp [mainIndex, hne]

/-- Claim C2 witness: the record of the frontmatter-less unit is in the
validate path's written index. -/
theorem c2_witness :
    buildIndexEntry c2NoFm.name
      ((parseFrontmatter "Samo besedilo brez glave.\n").getD [])
      "Samo besedilo brez glave.\n" ∈ mainEntries [c2NoFm] :=
  (c2_record_per_unit.2.1 [c2NoFm] c2NoFm "Samo besedilo brez glave.\n"
    (by decide) (by decide)).1

/-- Claim C3, counterexample: in the rebuild-index path two units with
the malformed dates `aaa` and `bbb` (in that input order) stay in input
order, not in the lexicographically descending order `bbb`, `aaa` the
claim asserts for every build path. -/
theorem c3_counterexample :
    (rebuildIndex [c3g1, c3g2]).map rDate = ["aaa", "bbb"] ∧
    (["aaa", "bbb"] : List String) ≠ ["bbb", "aaa"] :=
  ⟨by decide, by decide⟩

/-- Claim C3 (amended): the validate path's index is sorted by string
comparison on the date, descending, for every input (malformed dates
included), and orders the concrete triple as claimed; the rebuild-index
path compares parsed date values — it agrees on the triple of valid
dates but keeps unparseable dates in their input order instead of
sorting them lexically. -/
theorem c3_sort_order :
    (∀ files : List SrcFile,
      List.Pairwise
        (fun a b => lexLe (entryDate b).data (entryDate a).data = true)
        (mainEntries files)) ∧
    (mainEntries [c3f1, c3f2, c3f3]).map entryDate
      = ["2024-06-15", "2024-01-01", "2023-12-31"] ∧
    (rebuildIndex [c3f1, c3f2, c3f3]).map rDate
      = ["2024-06-15", "2024-01-01", "2023-12-31"] ∧
    (rebuildIndex [c3g1, c3g2]).map rDate = ["aaa", "bbb"] := by
  refine ⟨?_, by decide, by decide, by decide⟩
  intro files
  exact jsSort_pairwise mainLe
    (fun a b c h1 h2 => lexLe_trans _ _ _ h2 h1)
    (fun a b => lexLe_total (entryDate b).data (entryDate a).data)
    (mainScan files).1

/-- Claim C4: for every candidate excerpt longer than 180 characters the
computed excerpt is at most 181 characters (180 plus the one-character
ellipsis) and ends with the ellipsis; when the last space of the first
180 characters lies past index 108 (60% of the limit) the cut is at that
space — a word boundary, witnessed by the space at the cut index —
otherwise the cut is hard at the limit.  Concretely, the 220-character
first paragraph of `c4File`, with no explicit summary or excerpt, yields
the 175-character excerpt `c4Expected`, cut at the space at index 174. -/
theorem c4_truncation :
    (∀ s : String, 180 < s.data.length →
      (truncate180 s).data.length ≤ 181 ∧
      (truncate180 s).data.getLast? = some '…' ∧
      (∀ i, lastSpaceIdx (s.data.take 180) = some i → 108 < i →
        truncate180 s = ⟨jsTrimL (s.data.take i) ++ ['…']⟩ ∧
        s.data[i]? = some ' ') ∧
      ((∀ i, lastSpaceIdx (s.data.take 180) = some i → i ≤ 108) →
        truncate180 s = ⟨jsTrimL (s.data.take 180) ++ ['…']⟩)) ∧
    getEntry (buildIndexEntry c4File.name
      ((parseFrontmatter (c4File.content.getD "")).getD [])
      (c4File.content.getD "")) "excerpt" = some (.s c4Expected) ∧
    c4Para.data.length = 220 ∧
    c4Expected = ⟨jsTrimL (c4Para.data.take 174) ++ ['…']⟩ ∧
    c4Para.data[174]? = some ' ' ∧
    c4Expected.data.length = 175 := by
  refine ⟨?_, by decide, by decide, by decide, by decide, by decide⟩
  intro s hl
  have hnotle : ¬ s.data.length ≤ 180 := by omega
  have hbound : ∀ cut : Nat, cut ≤ 180 →
      (jsTrimL ((s.data.take 180).take cut) ++ ['…']).length ≤ 181 := by
    intro cut hcut
    have h1 : (jsTrimL ((s.data.take 180).take cut)).length ≤ 180 := by
      calc (jsTrimL ((s.data.take 180).take cut)).length
          ≤ ((s.data.take 180).take cut).length := jsTrimL_length_le _
        _ ≤ cut := List.length_take_le _ _
        _ ≤ 180 := hcut
    simpa using h1
  cases hls : lastSpaceIdx (s.data.take 180) with
  | none =>
    have ht : truncate180 s = ⟨jsTrimL ((s.data.take 180).take 180) ++ ['…']⟩ := by
      simp only [truncate180, hnotle, if_false, hls]
    have htake : (s.data.take 180).take 180 = s.data.take 180 := by
      rw [List.take_take, Nat.min_self]
    refine ⟨?_, ?_, ?_, ?_⟩
    · rw [ht]; exact hbound 180 (by omega)
    · rw [ht]; exact List.getLast?_concat _
    · intro i hi; exact absurd hi (by simp)
    · intro _; rw [ht, htake]
  | some i =>
    have hilt : i < 180 := by
      have h1 := lastSpaceIdx_lt hls
      rw [List.length_take, Nat.min_eq_left (by omega)] at h1
      exact h1
    by_cases hi : 108 < i
    · have ht : truncate180 s = ⟨jsTrimL ((s.data.take 180).take i) ++ ['…']⟩ := by
        simp only [truncate180, hnotle, if_false, hls, hi, if_true]
      have htake : (s.data.take 180).take i = s.data.take i := by
        rw [List.take_take, Nat.min_eq_left (by omega)]
      have hsp : s.data[i]? = some ' ' := by
        have h1 := lastSpaceIdx_getElem hls
        rwa [List.getElem?_take_of_lt hilt] at h1
      refine ⟨?_, ?_, ?_, ?_⟩
      · rw [ht]; exact hbound i (by omega)
      · rw [ht]; exact List.getLast?_concat _
      · intro j hj h108
        have hji : j = i := (Option.some.inj hj).symm
        subst hji
        exact ⟨by rw [ht, htake], hsp⟩
      · intro hno
        exact absurd (hno i rfl) (by omega)
    · have ht : truncate180 s = ⟨jsTrimL ((s.data.take 180).take 180) ++ ['…']⟩ := by
        simp only [truncate180, hnotle, if_false, hls, hi, if_false]
      have htake : (s.data.take 180).take 180 = s.data.take 180 := by
        rw [List.take_take, Nat.min_self]
      refine ⟨?_, ?_, ?_, ?_⟩
      · rw [ht]; exact hbound 180 (by omega)
      · rw [ht]; exact List.getLast?_concat _
      · intro j hj h108
        have hji : j = i := (Option.some.inj hj).symm
        subst hji
        exact absurd h108 hi
      · intro _; rw [ht, htake]

/-- Claim C4 witness: the general truncation bounds applied to the
concrete 220-character paragraph. -/
theorem c4_witness :
    180 < c4Para.data.length ∧
    (truncate180 c4Para).data.length ≤ 181 ∧
    (truncate180 c4Para).data.getLast? = some '…' :=
  ⟨by decide, (c4_truncation.1 c4Para (by decide)).1,
    (c4_truncation.1 c4Para (by decide)).2.1⟩

/-- Claim C5, counterexample: the rebuild-index path writes a record for
`c5File` (which has no author) whose `author` field is present with the
empty-string value, contradicting the claim that empty fields are
omitted in every index-writing path. -/
theorem c5_counterexample :
    (rebuildIndex [c5File]).map (fun e => getEntry e "author")
      = [some (.s "")] := by decide

/-- Claim C5 (amended): in the validate path's `buildIndexEntry` records
every present field value is neither the empty string nor the empty
list (`remove empty optionals`); the rebuild-index path performs no such
filtering and emits empty strings. -/
theorem c5_empty_fields_omitted :
    (∀ (fn : String) (yaml : List (String × FieldValue)) (md k : String)
      (v : JVal), (k, v) ∈ buildIndexEntry fn yaml md →
      v ≠ .s "" ∧ v ≠ .arr []) ∧
    getEntry ((rebuildIndex [c5File]).headD []) "author" = some (.s "") := by
  refine ⟨?_, by decide⟩
  intro fn yaml md k v hm
  have hk : keepField (k, v) = true := (List.mem_filter.mp hm).2
  cases v with
  | s w =>
    refine ⟨?_, by simp⟩
    intro he
    rw [he] at hk
    exact absurd hk (by simp [keepField])
  | n w => exact ⟨by simp, by simp⟩
  | arr w =>
    refine ⟨by simp, ?_⟩
    intro he
    rw [he] at hk
    exact absurd hk (by simp [keepField])

/-- Claim C5 witness: the general no-empty-fields fact applied to a
concrete record field of the validate path. -/
theorem c5_witness :
    JVal.s "Naslov" ≠ JVal.s "" ∧ JVal.s "Naslov" ≠ JVal.arr [] :=
  c5_empty_fields_omitted.1 c5File.name
    ((parseFrontmatter (c5File.content.getD "")).getD [])
    (c5File.content.getD "") "title" (JVal.s "Naslov") (by decide)

/-- Claim C6: a validate run exits with status zero exactly when every
enumerated markdown unit is readable and carries no hard validation
error; the warning channel is only printed and never reaches the exit
status, so warnings alone never produce a nonzero exit. -/
theorem c6_exit_status (files : List SrcFile) :
    mainExitCode files = 0 ↔
      ∀ f ∈ mdFilter files, ∃ raw, f.content = some raw ∧
        validateErrors (parseFrontmatter raw) f.name = [] := by
  by_cases he : (mdFilter files).isEmpty
  · have hnil : mdFilter files = [] := List.isEmpty_iff.mp he
    constructor
    · intro _ f hf
      rw [hnil] at hf
      exact absurd hf (by simp)
    · intro _
      simp [mainExitCode, he]
  · have h1 : mainExitCode files = 0 ↔ (mainScan files).2 = false := by
      rw [mainExitCode, if_neg (by simpa using he)]
      cases (mainScan files).2 <;> simp
    rw [h1, mainScan_flag, List.any_eq_false]
    constructor
    · intro h f hf
      exact (mainErrOf_eq_false_iff f).mp (by simpa using h f hf)
    · intro h f hf
      simpa using (mainErrOf_eq_false_iff f).mpr (h f hf)

/-- Claim C7: the bracket-list form `tags: [news, community]` and the
quoted comma-string form `tags: "news, community"` are parsed and
normalized to the identical list `["news", "community"]`. -/
theorem c7_tag_normalization :
    normalizeTags (getField ((parseFrontmatter c7RawA).getD []) "tags")
      = ["news", "community"] ∧
    normalizeTags (getField ((parseFrontmatter c7RawB).getD []) "tags")
      = ["news", "community"] ∧
    normalizeTags (getField ((parseFrontmatter c7RawA).getD []) "tags")
      = normalizeTags (getField ((parseFrontmatter c7RawB).getD []) "tags") :=
  ⟨by decide, by decide, by decide⟩

/-- Claim C8: a unit authored with title `X`, date `2024-03-05` and no
slug field is indexed with `slug = "x"` (derived from the title) and
`id = "2024-03-05-x"` (date and slug joined by a hyphen). -/
theorem c8_round_trip :
    getEntry (buildIndexEntry c8File.name
      ((parseFrontmatter (c8File.content.getD "")).getD [])
      (c8File.content.getD "")) "slug" = some (.s "x") ∧
    getEntry (buildIndexEntry c8File.name
      ((parseFrontmatter (c8File.content.getD "")).getD [])
      (c8File.content.getD "")) "id" = some (.s "2024-03-05-x") ∧
    (mainEntries [c8File]).map (fun e => getEntry e "id")
      = [some (.s "2024-03-05-x")] :=
  ⟨by decide, by decide, by decide⟩

/-- Claim C9: the slug function is a pure function implementing exactly
the specified algorithm — it coincides on every input with the
specification-worded `slugifySpec` (trim, lowercase, decompose and drop
combining marks, collapse non-alphanumeric runs to single hyphens, strip
edge hyphens) — and concretely maps `"Čudovita Novica!"` to
`"cudovita-novica"` and the empty string to the empty string. -/
theorem c9_slug_algorithm :
    toSlug "Čudovita Novica!" = "cudovita-novica" ∧
    toSlug "" = "" ∧
    (∀ s : String, toSlug s = slugifySpec s) := by
  refine ⟨by decide, by decide, ?_⟩
  intro s
  unfold toSlug slugifySpec
  exact congrArg String.mk (stripEdge_eq_dropAll (collapseRuns_chain _))

/-- Claim C10: every output of the slug derivation is either empty or
matches `SLUG_RE`, the validator's slug-format check: lowercase
alphanumeric blocks separated by single hyphens, with no leading or
trailing hyphen. -/
theorem c10_slug_wellformed (s : String) :
    toSlug s = "" ∨ slugReTest (toSlug s) = true := by
  rcases stripEdge_shape
      (collapseRuns (((jsTrimL s.data).map jsLowerChar).flatMap nfdChar |>.filter
        (fun c => !isCombiningMark c)))
      (collapseRuns_slugChars _) (collapseRuns_chain _) with h | h
  · left
    unfold toSlug
    rw [h]
  · right
    unfold slugReTest toSlug
    exact h

/-- Claim C6 witness: the exit-status characterization applied to a
concrete clean run. -/
theorem c6_witness : mainExitCode [c3f1] = 0 :=
  (c6_exit_status [c3f1]).mpr (by
    intro f hf
    have hfe : f = c3f1 := by
      have h2 : f = c3f1 ∧ ['.', 'm', 'd'] <:+ List.map jsLowerChar f.name.data := by
        simpa [mdFilter] using hf
      exact h2.1
    subst hfe
    exact ⟨(c3f1.content).getD "", by decide, by decide⟩)
